import Mathlib

/-!
# Space-Nomad: verification of the mission store against its specification

Shallow embedding of the Space-Nomad backend (`app/crud.py`, `app/main.py`).
The relational mission store is modelled as a `List Mission` in insertion
order (SQLAlchemy `db.add` appends; an unordered query returns rows in
insertion order for this single-table store).  Dates travel through the HTTP
layer as strings (`start_date: str`, `end_date: str` in `app/main.py`), so
`launch_date` and the date bounds are modelled as strings compared
lexicographically (ISO dates compare correctly this way); the lexicographic
order is taken on `String.toList` so that it is kernel-computable.
-/

namespace SpaceNomad

/-- A persisted mission row (`models.Mission`).  The model module itself is
not part of the sources; its columns `name`, `status`, `launch_date` are the
ones named by the data-model section of the specification. -/
structure Mission where
  name : String
  status : String
  launch_date : String
deriving DecidableEq, Repr

/-- An incoming raw mission record: a dictionary whose keys may be absent.
`none` models an absent key (or a `None` value, which `dict.get` and Python
truthiness treat the same way as absence). -/
structure MissionData where
  name : Option String
  status : Option String
  launch_date : Option String
deriving DecidableEq, Repr

/-- Python truthiness of an optional string parameter: `None` and the empty
string are falsy, every other string is truthy.  This is the guard used by
`if start_date:` / `if end_date:` / `if keyword:` / `if sort_by:` in
`crud.get_filtered_missions` and by `if not mission.get(...)` in
`main.update_spacex_data`. -/
def truthy : Option String → Bool
  | none => false
  | some s => !(s == "")

/-- Lexicographic order on strings, used to model SQL comparison of the
`launch_date` column and `ORDER BY` on string columns. -/
def strLe (s t : String) : Bool := decide (s.toList ≤ t.toList)

/-- Case-sensitive substring test, modelling SQLAlchemy
`Mission.name.contains(keyword)` (SQL `LIKE %keyword%`); the specification
fixes the match as a case-sensitive substring. -/
def containsSub (s pat : String) : Bool := decide (pat.toList <:+: s.toList)

/-- Lower-casing of a status string, modelling Python `str.lower()` in
`main.read_home` (defined via `Char.toLower` so that it is
kernel-computable). -/
def strLower (s : String) : String := String.mk (s.toList.map Char.toLower)

/-! ## crud.py -/

/-- `crud.get_mission_by_name`: first row whose `name` equals `n` exactly
(case-sensitive string equality), or `None`. -/
def get_mission_by_name (store : List Mission) (n : String) : Option Mission :=
  store.find? (fun m => m.name == n)

/-- `crud.create_mission`: `db.add` appends the new row to the store. -/
def create_mission (store : List Mission) (m : Mission) : List Mission :=
  store ++ [m]

/-- `crud.get_missions`: `query.offset(skip).limit(limit).all()`. -/
def get_missions (store : List Mission) (skip limit : Nat) : List Mission :=
  (store.drop skip).take limit

/-- The `setattr` loop of `crud.create_or_update_mission`: every field
present in the incoming dictionary overwrites the corresponding field of the
existing row; absent fields are left unchanged. -/
def applyFields (d : MissionData) (m : Mission) : Mission :=
  { name := d.name.getD m.name
    status := d.status.getD m.status
    launch_date := d.launch_date.getD m.launch_date }

/-- Modelled from the spec: `schemas.MissionCreate(**mission_data)` followed
by `models.Mission(**mission.dict())` — the schema module is not among the
sources; the specification says "construct a new record from the incoming
fields", so each field is taken from the incoming dictionary (absent fields
default to the empty string; every caller has validated `name` and `status`
present). -/
def newMission (d : MissionData) : Mission :=
  { name := d.name.getD ""
    status := d.status.getD ""
    launch_date := d.launch_date.getD "" }

/-- Replace the first row named `n` (the row `.first()` returns) by the
result of the `setattr` loop, leaving every other row in place. -/
def updateFirst (d : MissionData) (n : String) : List Mission → List Mission
  | [] => []
  | m :: rest =>
    if m.name = n then applyFields d m :: rest else m :: updateFirst d n rest

/-- `crud.create_or_update_mission`: look up an existing row by exact `name`
equality (`mission_data["name"]`; every caller has validated the key
present); if one exists overwrite every incoming field onto it in place,
otherwise create a new row from the incoming fields. -/
def create_or_update_mission (store : List Mission) (d : MissionData) :
    List Mission :=
  let n := d.name.getD ""
  if store.any (fun m => m.name == n) then updateFirst d n store
  else create_mission store (newMission d)

/-- Mission-record validation in `main.update_spacex_data`:
`not mission.get("name") or not mission.get("status")` skips the record, so
a record is processed iff both `name` and `status` are present and
non-empty. -/
def isValidMission (d : MissionData) : Bool :=
  truthy d.name && truthy d.status

/-- The per-record loop of `main.update_spacex_data` over the parsed mission
list: invalid records are skipped (logged in the source), valid records are
upserted in order.  The external fetch and parser (`app/api`) are outside
the store model; an absent external response makes the whole call a no-op
before this loop is reached. -/
def update_spacex_data (missions : List MissionData) (store : List Mission) :
    List Mission :=
  missions.foldl
    (fun s d => if isValidMission d then create_or_update_mission s d else s)
    store

/-! ## The filtered query (`crud.get_filtered_missions`) -/

/-- The filter stage of `crud.get_filtered_missions` (lines 40–45): each of
the three filters is applied only when its parameter is truthy, i.e. present
and non-empty. -/
def filteredMissions (store : List Mission)
    (start_date end_date keyword : Option String) : List Mission :=
  let q1 := if truthy start_date then
      store.filter (fun m => strLe (start_date.getD "") m.launch_date)
    else store
  let q2 := if truthy end_date then
      q1.filter (fun m => strLe m.launch_date (end_date.getD ""))
    else q1
  if truthy keyword then
    q2.filter (fun m => containsSub m.name (keyword.getD ""))
  else q2

/-- Modelled from the spec: `getattr(models.Mission, sort_by, None)` — the
model module is not among the sources; its columns are `name`, `status` and
`launch_date` per the data-model section, so exactly those strings resolve
to a column accessor and any other name yields `None` (a resolved column
object is always truthy for the subsequent `if sort_column:` check). -/
def getMissionAttr (col : String) : Option (Mission → String) :=
  if col = "name" then some Mission.name
  else if col = "status" then some Mission.status
  else if col = "launch_date" then some Mission.launch_date
  else none

/-- Ascending order on rows by a column accessor. -/
def fieldLe (f : Mission → String) (a b : Mission) : Prop :=
  (f a).toList ≤ (f b).toList

/-- Descending order on rows by a column accessor. -/
def fieldGe (f : Mission → String) (a b : Mission) : Prop :=
  (f b).toList ≤ (f a).toList

instance (f : Mission → String) : DecidableRel (fieldLe f) :=
  fun a b => inferInstanceAs (Decidable ((f a).toList ≤ (f b).toList))

instance (f : Mission → String) : DecidableRel (fieldGe f) :=
  fun a b => inferInstanceAs (Decidable ((f b).toList ≤ (f a).toList))

/-- The sort stage of `crud.get_filtered_missions` (lines 46–51): when
`sort_by` is truthy and resolves to a column, order by that column,
ascending exactly when `sort_order == "asc"`, descending otherwise; an
unresolved column name leaves the query unordered.  `ORDER BY` is modelled
by a stable sort (`List.insertionSort`). -/
def sortStage (L : List Mission) (sort_by : Option String)
    (sort_order : String) : List Mission :=
  if truthy sort_by then
    match getMissionAttr (sort_by.getD "") with
    | none => L
    | some f =>
      if sort_order = "asc" then L.insertionSort (fieldLe f)
      else L.insertionSort (fieldGe f)
  else L

/-- `crud.get_filtered_missions`: filter, then sort, then paginate with
`query.offset((page - 1) * size).limit(size)`.  Pages are modelled as
naturals; the source computes a possibly-negative Python offset for
`page < 1`, behaviour the specification leaves implementation-defined, and
every property below assumes `1 ≤ page`, where the two agree. -/
def get_filtered_missions (store : List Mission) (page size : Nat)
    (start_date end_date keyword : Option String)
    (sort_by : Option String) (sort_order : String) : List Mission :=
  ((sortStage (filteredMissions store start_date end_date keyword)
      sort_by sort_order).drop ((page - 1) * size)).take size

/-! ## main.py endpoints -/

/-- Outcome of the direct-create endpoint `POST /missions/`. -/
inductive CreateResult where
  | ok (created : Mission)
  | httpError (code : Nat) (detail : String)
deriving DecidableEq, Repr

/-- `main.create_mission` (`POST /missions/`): reject a duplicate name with
HTTP 400 leaving the store untouched, otherwise append the new row.  The
result pairs the HTTP outcome with the store after the call. -/
def create_mission_endpoint (store : List Mission) (mission : Mission) :
    CreateResult × List Mission :=
  match get_mission_by_name store mission.name with
  | some _ => (CreateResult.httpError 400 "Mission already exists", store)
  | none => (CreateResult.ok mission, create_mission store mission)

/-- `main.FUN_FACTS`, the fixed fun-facts list of the home page. -/
def FUN_FACTS : List String :=
  [ "The sun is 330,000 times more massive than Earth!"
  , "One day on Venus is longer than a year on Venus."
  , "The Milky Way has over 200 billion stars."
  , "Space is completely silent because there\x27s no air."
  , "Jupiter\x27s Great Red Spot is a massive storm that has raged for hundreds of years."
  ]

/-- The aggregate values `main.read_home` passes to the template. -/
structure HomeStats where
  total_missions : Nat
  completed_missions : Nat
  ongoing_missions : Nat
  fun_fact : String
deriving DecidableEq, Repr

/-- `main.read_home` (`GET /index`): fetch missions with
`crud.get_missions(db, limit=100)` (skip defaults to 0), count the fetched
rows in total and those whose lower-cased status equals "completed" or
"ongoing", and pick a fun fact; `random.choice` is modelled by an explicit
index `r` reduced modulo the list length. -/
def read_home (store : List Mission) (r : Nat) : HomeStats :=
  let missions := get_missions store 0 100
  { total_missions := missions.length
    completed_missions :=
      (missions.filter (fun m => strLower m.status == "completed")).length
    ongoing_missions :=
      (missions.filter (fun m => strLower m.status == "ongoing")).length
    fun_fact := FUN_FACTS.getD (r % FUN_FACTS.length) "" }

/-! ## Helper lemmas -/

/-- Truthiness of a present, non-empty string parameter. -/
theorem truthy_some_of_ne (s : String) (h : s ≠ "") : truthy (some s) = true := by
  simp [truthy, h]

/-- The `any` guard of `create_or_update_mission` holds iff some row carries
the name. -/
theorem any_name_iff (store : List Mission) (n : String) :
    (store.any fun m => m.name == n) = true ↔ ∃ m ∈ store, m.name = n := by
  simp [List.any_eq_true]

/-- `updateFirst` rewrites exactly the first row named `n` and leaves the
prefix before it and the suffix after it unchanged. -/
theorem updateFirst_append (d : MissionData) (n : String) (pre : List Mission)
    (m : Mission) (post : List Mission)
    (hpre : ∀ x ∈ pre, x.name ≠ n) (hm : m.name = n) :
    updateFirst d n (pre ++ m :: post) = pre ++ applyFields d m :: post := by
  induction pre with
  | nil => simp [updateFirst, hm]
  | cons a as ih =>
    have ha : a.name ≠ n := hpre a (by simp)
    simp only [List.cons_append, updateFirst, if_neg ha]
    exact congrArg (a :: ·) (ih fun x hx => hpre x (by simp [hx]))

/-! ## C1: upsert semantics of `create_or_update_mission` -/

/-- C1: `create_or_update_mission` looks up an existing row by exact,
case-sensitive equality on `name`; when no row carries the incoming name it
appends a new row built from the incoming fields, and when one does it
overwrites every field present in the incoming record onto the first such
row in place, leaving all other rows unchanged. -/
theorem create_or_update_mission_spec (store : List Mission) (d : MissionData)
    (n : String) (hn : d.name = some n) :
    ((∀ m ∈ store, m.name ≠ n) →
      create_or_update_mission store d = store ++ [newMission d]) ∧
    (∀ (pre : List Mission) (m : Mission) (post : List Mission),
      store = pre ++ m :: post → (∀ x ∈ pre, x.name ≠ n) → m.name = n →
      create_or_update_mission store d = pre ++ applyFields d m :: post) := by
  constructor
  · intro habsent
    have hany : (store.any fun m => m.name == n) = false := by
      rw [← Bool.not_eq_true, any_name_iff]
      rintro ⟨m, hm, hname⟩
      exact habsent m hm hname
    simp [create_or_update_mission, hn, hany, create_mission]
  · intro pre m post hsplit hpre hm
    have hany : (store.any fun x => x.name == n) = true := by
      rw [any_name_iff]
      exact ⟨m, by simp [hsplit], hm⟩
    subst hsplit
    simp only [create_or_update_mission, hn, Option.getD_some, hany, if_pos]
    exact updateFirst_append d n pre m post hpre hm

/-- Witness for C1 on concrete data: updating an existing "Falcon-1" row
overwrites the present fields (`name`, `status`) and keeps the absent one
(`launch_date`). -/
theorem create_or_update_mission_spec_witness :
    create_or_update_mission [⟨"Falcon-1", "completed", "2020-01-01"⟩]
        ⟨some "Falcon-1", some "ongoing", none⟩ =
      [⟨"Falcon-1", "ongoing", "2020-01-01"⟩] := by
  have h :=
    (create_or_update_mission_spec [⟨"Falcon-1", "completed", "2020-01-01"⟩]
        ⟨some "Falcon-1", some "ongoing", none⟩ "Falcon-1" rfl).2
      [] ⟨"Falcon-1", "completed", "2020-01-01"⟩ [] rfl (by simp) rfl
  simpa [applyFields] using h

/-! ## C2: validation in `update_spacex_data` -/

/-- C2: the synchronizer processes a batch as if every record lacking a
non-empty `name` or a non-empty `status` had been removed: such a record is
skipped, contributes nothing to the store, and the remaining records are
upserted in order — in particular a record missing `status` is never
persisted. -/
theorem update_spacex_data_skips_invalid (missions : List MissionData)
    (store : List Mission) :
    update_spacex_data missions store =
      (missions.filter isValidMission).foldl create_or_update_mission store := by
  induction missions generalizing store with
  | nil => rfl
  | cons d rest ih =>
    by_cases hd : isValidMission d = true
    · simp [update_spacex_data, List.filter_cons, hd, ← ih]
    · simp only [Bool.not_eq_true] at hd
      simp [update_spacex_data, List.filter_cons, hd, ← ih]

/-! ## C3: upsert idempotence per name -/

/-- C3: starting from a store with no row named `n`, upserting a record
named `n` and then a second record named `n` (with any field values) leaves
exactly one row named `n`, carrying the second record's field values, and
leaves the rest of the store untouched. -/
theorem upsert_idempotent_per_name (store : List Mission) (d1 : MissionData)
    (n st ld : String) (hstore : ∀ m ∈ store, m.name ≠ n)
    (h1 : d1.name = some n) :
    (create_or_update_mission (create_or_update_mission store d1)
        ⟨some n, some st, some ld⟩).filter (fun m => m.name == n) =
      [⟨n, st, ld⟩] ∧
    create_or_update_mission (create_or_update_mission store d1)
        ⟨some n, some st, some ld⟩ = store ++ [⟨n, st, ld⟩] := by
  have hfirst : create_or_update_mission store d1 = store ++ [newMission d1] :=
    (create_or_update_mission_spec store d1 n h1).1 hstore
  have hname1 : (newMission d1).name = n := by simp [newMission, h1]
  have hsecond :
      create_or_update_mission (store ++ [newMission d1])
          ⟨some n, some st, some ld⟩ = store ++ [⟨n, st, ld⟩] := by
    have h :=
      (create_or_update_mission_spec (store ++ [newMission d1])
          ⟨some n, some st, some ld⟩ n rfl).2 store (newMission d1) [] rfl
        hstore hname1
    simpa [applyFields] using h
  refine ⟨?_, by rw [hfirst, hsecond]⟩
  rw [hfirst, hsecond, List.filter_append]
  have hleft : store.filter (fun m => m.name == n) = [] := by
    rw [List.filter_eq_nil_iff]
    intro m hm
    simpa using hstore m hm
  simp [hleft]

/-- Witness for C3: the specification's Falcon-1 scenario — an empty store,
a first sync with status "completed", a second with status "ongoing" —
leaves exactly one "Falcon-1" row, now "ongoing". -/
theorem upsert_idempotent_per_name_witness :
    (create_or_update_mission
        (create_or_update_mission []
          ⟨some "Falcon-1", some "completed", some "2020-01-01"⟩)
        ⟨some "Falcon-1", some "ongoing", some "2020-01-01"⟩).filter
      (fun m => m.name == "Falcon-1") = [⟨"Falcon-1", "ongoing", "2020-01-01"⟩] :=
  (upsert_idempotent_per_name [] ⟨some "Falcon-1", some "completed", some "2020-01-01"⟩
    "Falcon-1" "ongoing" "2020-01-01" (by simp) rfl).1

/-! ## C4: the conjunction of filters -/

/-- The predicate as the specification words it: `launch_date >= start_date`
when a start date is given, `launch_date <= end_date` when an end date is
given, `name` contains the keyword as a case-sensitive substring when a
keyword is given, and an omitted filter imposes no constraint.  Stated
separately from `filteredMissions` (which is translated from the query
construction in the source) so the two can be compared. -/
def specFilterPred (start_date end_date keyword : Option String)
    (m : Mission) : Bool :=
  (match start_date with
    | none => true
    | some s => strLe s m.launch_date) &&
  (match end_date with
    | none => true
    | some s => strLe m.launch_date s) &&
  (match keyword with
    | none => true
    | some s => containsSub m.name s)

/-- A conditionally applied filter never lengthens a list. -/
theorem length_ite_filter_le (c : Bool) (p : Mission → Bool) (l : List Mission) :
    (if c = true then l.filter p else l).length ≤ l.length := by
  cases c
  · simp
  · simpa using List.length_filter_le p l

/-- A conditionally applied filter keeps only elements of the list, guarded
by its condition. -/
theorem ite_filter_eq_filter (c : Bool) (p : Mission → Bool) (l : List Mission) :
    (if c = true then l.filter p else l) = l.filter (fun m => !c || p m) := by
  cases c
  · simp
  · simp

/-- The filter stage never produces more rows than the store holds. -/
theorem filteredMissions_length_le (store : List Mission)
    (sd ed kw : Option String) :
    (filteredMissions store sd ed kw).length ≤ store.length := by
  unfold filteredMissions
  exact le_trans (length_ite_filter_le _ _ _)
    (le_trans (length_ite_filter_le _ _ _) (length_ite_filter_le _ _ _))

/-- The filter stage equals a single pass with the specification's
conjunction, whenever each supplied parameter is non-empty. -/
theorem filteredMissions_eq_filter (store : List Mission)
    (sd ed kw : Option String) (h1 : sd ≠ some "") (h2 : ed ≠ some "")
    (h3 : kw ≠ some "") :
    filteredMissions store sd ed kw = store.filter (specFilterPred sd ed kw) := by
  unfold filteredMissions
  rw [ite_filter_eq_filter, ite_filter_eq_filter, ite_filter_eq_filter,
    List.filter_filter, List.filter_filter]
  refine List.filter_congr fun m _ => ?_
  rcases sd with _ | s1 <;> rcases ed with _ | s2 <;> rcases kw with _ | s3
  · simp [specFilterPred, truthy]
  · have hs3 : s3 ≠ "" := by simpa using h3
    simp [specFilterPred, truthy, hs3]
  · have hs2 : s2 ≠ "" := by simpa using h2
    simp [specFilterPred, truthy, hs2]
  · have hs2 : s2 ≠ "" := by simpa using h2
    have hs3 : s3 ≠ "" := by simpa using h3
    simp only [specFilterPred, truthy, Option.getD_some]
    rw [show (s2 == "") = false by simpa using hs2,
      show (s3 == "") = false by simpa using hs3]
    cases strLe m.launch_date s2 <;> cases containsSub m.name s3 <;> rfl
  · have hs1 : s1 ≠ "" := by simpa using h1
    simp [specFilterPred, truthy, hs1]
  · have hs1 : s1 ≠ "" := by simpa using h1
    have hs3 : s3 ≠ "" := by simpa using h3
    simp only [specFilterPred, truthy, Option.getD_some]
    rw [show (s1 == "") = false by simpa using hs1,
      show (s3 == "") = false by simpa using hs3]
    cases strLe s1 m.launch_date <;> cases containsSub m.name s3 <;> rfl
  · have hs1 : s1 ≠ "" := by simpa using h1
    have hs2 : s2 ≠ "" := by simpa using h2
    simp only [specFilterPred, truthy, Option.getD_some]
    rw [show (s1 == "") = false by simpa using hs1,
      show (s2 == "") = false by simpa using hs2]
    cases strLe s1 m.launch_date <;> cases strLe m.launch_date s2 <;> rfl
  · have hs1 : s1 ≠ "" := by simpa using h1
    have hs2 : s2 ≠ "" := by simpa using h2
    have hs3 : s3 ≠ "" := by simpa using h3
    simp only [specFilterPred, truthy, Option.getD_some, beq_eq_false_iff_ne,
      ne_eq, Bool.not_eq_true]
    rw [show (s1 == "") = false by simpa using hs1,
      show (s2 == "") = false by simpa using hs2,
      show (s3 == "") = false by simpa using hs3]
    cases strLe s1 m.launch_date <;> cases strLe m.launch_date s2 <;>
      cases containsSub m.name s3 <;> rfl

/-- C4: with page 1 and a page size covering the whole store, no sort, and
each filter either omitted or supplied non-empty, `get_filtered_missions`
returns exactly the missions satisfying the specification's conjunction:
`launch_date >= start_date` when a start date is given, `launch_date <=
end_date` when an end date is given, and a case-sensitive substring match of
the keyword in `name` when a keyword is given; an omitted filter imposes no
constraint. -/
theorem get_filtered_missions_filters (store : List Mission)
    (sd ed kw : Option String) (h1 : sd ≠ some "") (h2 : ed ≠ some "")
    (h3 : kw ≠ some "") :
    get_filtered_missions store 1 store.length sd ed kw none "asc" =
      store.filter (specFilterPred sd ed kw) := by
  unfold get_filtered_missions
  have hsort : sortStage (filteredMissions store sd ed kw) none "asc" =
      filteredMissions store sd ed kw := by
    simp [sortStage, truthy]
  rw [hsort]
  simp only [Nat.sub_self, Nat.zero_mul, List.drop_zero]
  rw [List.take_of_length_le (filteredMissions_length_le store sd ed kw)]
  exact filteredMissions_eq_filter store sd ed kw h1 h2 h3

/-- Witness for C4 on a three-row store: a start date of "2020-06-01" and
the keyword "con" keep exactly the row whose date is on or after the bound
and whose name contains "con". -/
theorem get_filtered_missions_filters_witness :
    get_filtered_missions
        [⟨"Falcon-1", "completed", "2020-01-01"⟩,
         ⟨"Falcon-9", "ongoing", "2021-03-05"⟩,
         ⟨"Starship", "ongoing", "2023-04-20"⟩]
        1 3 (some "2020-06-01") none (some "con") none "asc" =
      [⟨"Falcon-9", "ongoing", "2021-03-05"⟩] := by
  have h :=
    get_filtered_missions_filters
      [⟨"Falcon-1", "completed", "2020-01-01"⟩,
       ⟨"Falcon-9", "ongoing", "2021-03-05"⟩,
       ⟨"Starship", "ongoing", "2023-04-20"⟩]
      (some "2020-06-01") none (some "con") (by decide) (by decide) (by decide)
  rw [show ([⟨"Falcon-1", "completed", "2020-01-01"⟩,
       ⟨"Falcon-9", "ongoing", "2021-03-05"⟩,
       ⟨"Starship", "ongoing", "2023-04-20"⟩] : List Mission).length = 3 from rfl] at h
  rw [h]
  decide

/-! ## C5: pagination -/

/-- C5: for every page `p ≥ 1` and size `s`, the query drops the first
`(p - 1) * s` rows of the filtered and sorted sequence and returns at most
`s` rows; pages `p` and `p + 1` concatenate to one contiguous, gap-free
segment of that sequence (hence are disjoint index ranges of it). -/
theorem get_filtered_missions_pagination (store : List Mission)
    (sd ed kw sb : Option String) (so : String) (p s : Nat) (hp : 1 ≤ p) :
    get_filtered_missions store p s sd ed kw sb so =
      ((sortStage (filteredMissions store sd ed kw) sb so).drop
        ((p - 1) * s)).take s ∧
    (get_filtered_missions store p s sd ed kw sb so).length ≤ s ∧
    get_filtered_missions store p s sd ed kw sb so ++
        get_filtered_missions store (p + 1) s sd ed kw sb so =
      ((sortStage (filteredMissions store sd ed kw) sb so).drop
        ((p - 1) * s)).take (2 * s) := by
  refine ⟨rfl, by simp [get_filtered_missions], ?_⟩
  unfold get_filtered_missions
  have hmul : (p - 1) * s + s = p * s := by
    have hpred : p - 1 + 1 = p := Nat.succ_pred_eq_of_pos hp
    calc (p - 1) * s + s = (p - 1 + 1) * s := by rw [Nat.succ_mul]
    _ = p * s := by rw [hpred]
  have hdrop :
      (sortStage (filteredMissions store sd ed kw) sb so).drop ((p + 1 - 1) * s) =
        ((sortStage (filteredMissions store sd ed kw) sb so).drop
          ((p - 1) * s)).drop s := by
    rw [List.drop_drop, hmul]
    norm_num
  rw [hdrop, two_mul, List.take_add]

/-- Witness for C5: page 1 of size 2 over a three-row store, concatenated
with page 2, is the first four-row (here: whole) segment. -/
theorem get_filtered_missions_pagination_witness :
    get_filtered_missions
        [⟨"a", "s", "1"⟩, ⟨"b", "s", "2"⟩, ⟨"c", "s", "3"⟩]
        1 2 none none none none "asc" ++
      get_filtered_missions
        [⟨"a", "s", "1"⟩, ⟨"b", "s", "2"⟩, ⟨"c", "s", "3"⟩]
        2 2 none none none none "asc" =
      [⟨"a", "s", "1"⟩, ⟨"b", "s", "2"⟩, ⟨"c", "s", "3"⟩] := by
  have h :=
    (get_filtered_missions_pagination
      [⟨"a", "s", "1"⟩, ⟨"b", "s", "2"⟩, ⟨"c", "s", "3"⟩]
      none none none none "asc" 1 2 (by decide)).2.2
  rw [h]
  decide

/-! ## C10: empty-string filter parameters -/

/-- C10: supplying the empty string for the start date, the end date, or the
keyword behaves exactly like omitting that parameter (each filter guard is a
truthiness test); in particular an empty keyword alone leaves the store
unfiltered. -/
theorem empty_string_filters_ignored (store : List Mission) (p s : Nat)
    (sd ed kw sb : Option String) (so : String) :
    (get_filtered_missions store p s (some "") ed kw sb so =
      get_filtered_missions store p s none ed kw sb so) ∧
    (get_filtered_missions store p s sd (some "") kw sb so =
      get_filtered_missions store p s sd none kw sb so) ∧
    (get_filtered_missions store p s sd ed (some "") sb so =
      get_filtered_missions store p s sd ed none sb so) ∧
    filteredMissions store none none (some "") = store := by
  refine ⟨?_, ?_, ?_, ?_⟩ <;>
    simp [get_filtered_missions, filteredMissions, truthy]

/-! ## C6: the direct-create endpoint -/

/-- C6: `POST /missions/` with a name already in the store fails with HTTP
400 and leaves the store exactly as it was; with a fresh name it appends the
new row, leaving every existing row unchanged — the endpoint never updates
an existing record. -/
theorem create_mission_endpoint_spec (store : List Mission) (mission : Mission) :
    ((∃ m ∈ store, m.name = mission.name) →
      create_mission_endpoint store mission =
        (CreateResult.httpError 400 "Mission already exists", store)) ∧
    ((∀ m ∈ store, m.name ≠ mission.name) →
      create_mission_endpoint store mission =
        (CreateResult.ok mission, store ++ [mission])) := by
  constructor
  · rintro ⟨m, hm, hname⟩
    cases hfind : store.find? (fun x => x.name == mission.name) with
    | none =>
      exfalso
      have hnone := List.find?_eq_none.mp hfind m hm
      simp [hname] at hnone
    | some x =>
      simp [create_mission_endpoint, get_mission_by_name, hfind]
  · intro habsent
    have hfind : store.find? (fun x => x.name == mission.name) = none :=
      List.find?_eq_none.mpr fun x hx => by simpa using habsent x hx
    simp [create_mission_endpoint, get_mission_by_name, hfind, create_mission]

/-- Witness for C6: the specification's Artemis scenario — the first create
succeeds, the second call with the same name fails with HTTP 400 and the
store still holds exactly the one original Artemis row. -/
theorem create_mission_endpoint_spec_witness :
    create_mission_endpoint [] ⟨"Artemis", "planned", "2026-01-01"⟩ =
      (CreateResult.ok ⟨"Artemis", "planned", "2026-01-01"⟩,
        [⟨"Artemis", "planned", "2026-01-01"⟩]) ∧
    create_mission_endpoint [⟨"Artemis", "planned", "2026-01-01"⟩]
        ⟨"Artemis", "ongoing", "2027-05-01"⟩ =
      (CreateResult.httpError 400 "Mission already exists",
        [⟨"Artemis", "planned", "2026-01-01"⟩]) := by
  constructor
  · have h :=
      (create_mission_endpoint_spec [] ⟨"Artemis", "planned", "2026-01-01"⟩).2
        (by simp)
    simpa using h
  · exact
      (create_mission_endpoint_spec [⟨"Artemis", "planned", "2026-01-01"⟩]
        ⟨"Artemis", "ongoing", "2027-05-01"⟩).1
        ⟨⟨"Artemis", "planned", "2026-01-01"⟩, by simp, rfl⟩

/-! ## C7 and C9: sorting -/

instance (f : Mission → String) : IsTotal Mission (fieldLe f) :=
  ⟨fun a b => le_total (f a).toList (f b).toList⟩

instance (f : Mission → String) : IsTrans Mission (fieldLe f) :=
  ⟨fun _ _ _ h1 h2 => le_trans h1 h2⟩

instance (f : Mission → String) : IsTotal Mission (fieldGe f) :=
  ⟨fun a b => le_total (f b).toList (f a).toList⟩

instance (f : Mission → String) : IsTrans Mission (fieldGe f) :=
  ⟨fun _ _ _ h1 h2 => le_trans h2 h1⟩

/-- When the sort column resolves to a real attribute, the sort stage is the
stable sort by that attribute, ascending exactly for `sort_order = "asc"`
and descending otherwise. -/
theorem sortStage_of_attr (L : List Mission) (c so : String)
    (f : Mission → String) (hf : getMissionAttr c = some f) :
    sortStage L (some c) so =
      if so = "asc" then L.insertionSort (fieldLe f)
      else L.insertionSort (fieldGe f) := by
  have hc : truthy (some c) = true := by
    rcases eq_or_ne c "" with rfl | hne
    · simp [getMissionAttr] at hf
    · exact truthy_some_of_ne c hne
  unfold sortStage
  rw [if_pos hc]
  simp only [Option.getD_some, hf]

/-- C7: a sort column naming a real attribute of the Mission model orders
the rows by that attribute — ascending for `sort_order = "asc"`, descending
for any other value — as a permutation of the unsorted rows; a column name
that resolves to no attribute is silently ignored and the rows come back
unchanged. -/
theorem sort_column_spec (L : List Mission) (c so : String) :
    (getMissionAttr c = none → sortStage L (some c) so = L) ∧
    (∀ f, getMissionAttr c = some f →
      (sortStage L (some c) so).Perm L ∧
      (so = "asc" → (sortStage L (some c) so).Sorted (fieldLe f)) ∧
      (so ≠ "asc" → (sortStage L (some c) so).Sorted (fieldGe f))) := by
  constructor
  · intro hnone
    cases htr : truthy (some c) <;> simp [sortStage, htr, hnone]
  · intro f hf
    rw [sortStage_of_attr L c so f hf]
    by_cases hso : so = "asc"
    · rw [if_pos hso]
      exact ⟨List.perm_insertionSort _ _,
        fun _ => List.sorted_insertionSort _ _, fun h => absurd hso h⟩
    · rw [if_neg hso]
      exact ⟨List.perm_insertionSort _ _,
        fun h => absurd h hso, fun _ => List.sorted_insertionSort _ _⟩

/-- Witness for C7: the unrecognized column "bogus" leaves a concrete store
untouched, while the real column "name" yields rows sorted by name. -/
theorem sort_column_spec_witness :
    sortStage [⟨"b", "s", "2"⟩, ⟨"a", "s", "1"⟩] (some "bogus") "asc" =
      [⟨"b", "s", "2"⟩, ⟨"a", "s", "1"⟩] ∧
    (sortStage [⟨"b", "s", "2"⟩, ⟨"a", "s", "1"⟩] (some "name") "asc").Sorted
      (fieldLe Mission.name) :=
  ⟨(sort_column_spec [⟨"b", "s", "2"⟩, ⟨"a", "s", "1"⟩] "bogus" "asc").1 rfl,
   ((sort_column_spec [⟨"b", "s", "2"⟩, ⟨"a", "s", "1"⟩] "name" "asc").2
      Mission.name rfl).2.1 rfl⟩

/-- C9: with a recognized sort column, every `sort_order` other than the
exact lowercase string "asc" behaves identically to "desc" and produces a
descending sort; the exact string "asc" alone produces an ascending sort. -/
theorem sort_order_exact_asc (L : List Mission) (c so : String)
    (f : Mission → String) (hf : getMissionAttr c = some f)
    (hso : so ≠ "asc") :
    sortStage L (some c) so = sortStage L (some c) "desc" ∧
    (sortStage L (some c) so).Sorted (fieldGe f) ∧
    (sortStage L (some c) "asc").Sorted (fieldLe f) := by
  refine ⟨?_, ?_, ?_⟩
  · rw [sortStage_of_attr L c so f hf, sortStage_of_attr L c "desc" f hf,
      if_neg hso, if_neg (by decide : ¬("desc" : String) = "asc")]
  · rw [sortStage_of_attr L c so f hf, if_neg hso]
    exact List.sorted_insertionSort _ _
  · rw [sortStage_of_attr L c "asc" f hf, if_pos rfl]
    exact List.sorted_insertionSort _ _

/-- Witness for C9: the uppercase order string "ASC" sorts a concrete store
exactly as "desc" does, in descending name order. -/
theorem sort_order_exact_asc_witness :
    sortStage [⟨"a", "s", "1"⟩, ⟨"b", "s", "2"⟩] (some "name") "ASC" =
      sortStage [⟨"a", "s", "1"⟩, ⟨"b", "s", "2"⟩] (some "name") "desc" ∧
    (sortStage [⟨"a", "s", "1"⟩, ⟨"b", "s", "2"⟩] (some "name") "ASC").Sorted
      (fieldGe Mission.name) :=
  ⟨(sort_order_exact_asc [⟨"a", "s", "1"⟩, ⟨"b", "s", "2"⟩] "name" "ASC"
      Mission.name rfl (by decide)).1,
   (sort_order_exact_asc [⟨"a", "s", "1"⟩, ⟨"b", "s", "2"⟩] "name" "ASC"
      Mission.name rfl (by decide)).2.1⟩

/-! ## C8: the home-page aggregates -/

/-- A store of 101 rows, all with status "completed". -/
def bigStore : List Mission :=
  (List.range 101).map (fun i => ⟨toString i, "completed", "2020-01-01"⟩)

/-- Counterexample to C8 as stated: `read_home` fetches with `limit=100`, so
on a store of 101 missions the page reports 100 — not the store's total. -/
theorem read_home_capped_counterexample :
    bigStore.length = 101 ∧ (read_home bigStore 0).total_missions = 100 ∧
    (read_home bigStore 0).completed_missions = 100 := by decide

/-- C8 amended: the `GET /index` aggregates are computed over the first 100
rows of the store (the handler fetches with `limit=100`): the reported total
is the store size capped at 100, the completed and ongoing counts match
"completed" / "ongoing" case-insensitively among those first 100 rows, and
the fun fact is one of the fixed fun-facts list. -/
theorem read_home_spec (store : List Mission) (r : Nat) :
    (read_home store r).total_missions = min store.length 100 ∧
    (read_home store r).completed_missions =
      List.countP (fun m => strLower m.status == "completed") (store.take 100) ∧
    (read_home store r).ongoing_missions =
      List.countP (fun m => strLower m.status == "ongoing") (store.take 100) ∧
    (read_home store r).fun_fact ∈ FUN_FACTS := by
  unfold read_home get_missions
  refine ⟨?_, ?_, ?_, ?_⟩
  · simp [List.length_take, Nat.min_comm]
  · simp [List.countP_eq_length_filter]
  · simp [List.countP_eq_length_filter]
  · have hlt : r % FUN_FACTS.length < FUN_FACTS.length :=
      Nat.mod_lt _ (by decide)
    simp only [List.getD_eq_getElem _ _ hlt]
    exact List.getElem_mem hlt

end SpaceNomad
